import Mathlib

/-!
Verification of the annotation-resolution and profile-rewriting engine of
go-ignore-cov, a post-processor for Go coverage reports.

The definitions below are a shallow embedding of the functions in main.go:
the comment scanner (getInstructionFromLine, readInstructionsFromSourceFile),
the three instruction transforms on a profile block list (IgnoreBlock,
IgnoreFile, PatternIgnore), the path pattern matcher
(PatternMatcher.MatchesFile), the per-profile rewriting step of main, and the
report serializer (writeProfiles).  File IO is abstracted away: the scanner is
modelled on the list of lines of the file, and the matcher takes the already
computed relative path (filepath.Rel with fallback to the absolute path).
External collaborators (doublestar.Match and compiled regexes) are modelled as
the match functions carried by the stored pattern rules.
-/

/-- Go character class \s in RE2 default mode: tab, newline, form feed,
carriage return, space. -/
def isGoSpace (c : Char) : Bool :=
  c = ' ' || c = '\t' || c = '\n' || c = '\x0c' || c = '\r'

/-- Character class [a-z] of the ignore-comment regex. -/
def isLowerAZ (c : Char) : Bool :=
  'a' ≤ c && c ≤ 'z'

/-- Whether the first list starts with the second one. -/
def listStartsWith : List Char → List Char → Bool
  | _, [] => true
  | [], _ :: _ => false
  | a :: as, b :: bs => a == b && listStartsWith as bs

/-- strings.Contains on character lists: the needle occurs somewhere in the
haystack. -/
def listContains : List Char → List Char → Bool
  | [], needle => needle.isEmpty
  | c :: rest, needle => listStartsWith (c :: rest) needle || listContains rest needle

/-- Suffix of the regex coverageIgnoreRegex after the literal
coverage:ignore has been consumed: either the line ends here (no keyword,
capture group 2 empty) or exactly one \s character followed by a non-empty
run of lowercase letters reaching the end of the line (capture group 2). -/
def kwTail : List Char → Option String
  | [] => some ""
  | c :: rest =>
    if isGoSpace c && !rest.isEmpty && rest.all isLowerAZ then some (String.mk rest)
    else none

/-- One anchored match attempt of the Go regex
//\s?coverage:ignore(\s([a-z]+))?$ starting at the head of the given
character list, returning the text of capture group 2 ("" when the group did
not participate).  The two branches of \s? are mutually exclusive because
the literal starts with the letter c, which is not a \s character. -/
def matchIgnoreAt : List Char → Option String
  | '/' :: '/' :: rest =>
    if listStartsWith rest "coverage:ignore".data then
      kwTail (rest.drop 15)
    else
      match rest with
      | c :: rest2 =>
        if isGoSpace c && listStartsWith rest2 "coverage:ignore".data then
          kwTail (rest2.drop 15)
        else none
      | [] => none
  | _ => none

/-- FindStringSubmatch of coverageIgnoreRegex on a line: the leftmost start
position at which the end-of-line-anchored pattern matches, returning capture
group 2 of that match. -/
def findIgnoreMatch : List Char → Option String
  | [] => none
  | c :: rest =>
    match matchIgnoreAt (c :: rest) with
    | some kw => some kw
    | none => findIgnoreMatch rest

/-- The constant InstructionBlock of main.go. -/
def InstructionBlock : String := "block"

/-- The constant InstructionFile of main.go. -/
def InstructionFile : String := "file"

/-- The constant DefaultInstruction of main.go. -/
def DefaultInstruction : String := InstructionBlock

/-- The fast substring pre-check of getInstructionFromLine:
strings.Contains(line, "//coverage:ignore") or
strings.Contains(line, "// coverage:ignore"). -/
def hasIgnoreMarker (line : String) : Bool :=
  listContains line.data "//coverage:ignore".data ||
    listContains line.data "// coverage:ignore".data

/-- getInstructionFromLine of main.go: under the substring pre-check, run the
regex; on a match return capture group 2, defaulting to DefaultInstruction
when the group is empty.  some/none stand for the (string, bool) pair. -/
def getInstructionFromLine (line : String) : Option String :=
  if hasIgnoreMarker line then
    match findIgnoreMatch line.data with
    | some kw => some (if kw = "" then DefaultInstruction else kw)
    | none => none
  else none

/-- The Instruction interface of main.go as a closed sum of its three
implementations. -/
inductive Instruction where
  | ignoreBlock (line col : Nat)
  | ignoreFile
  | patternIgnore (matchedBy : String)
deriving DecidableEq

/-- The data of the error produced by readInstructionsFromSourceFile for an
unexpected ignore instruction: the offending keyword, the 1-based line
number, and the file path. -/
structure ScanError where
  keyword : String
  line : Nat
  path : String
deriving DecidableEq

/-- The loop state of readInstructionsFromSourceFile: the 1-based line
counter, the pendingBlockInstruction string, and the instructions collected
so far. -/
structure ScanState where
  lineNumber : Nat
  pending : String
  instructions : List Instruction
deriving DecidableEq

/-- colStart of main.go:
len(lineTxt) - len(strings.TrimLeft(lineTxt, "\t ")) + 1. -/
def colStart (lineTxt : String) : Nat :=
  lineTxt.data.length - (lineTxt.data.dropWhile (fun c => c = '\t' || c = ' ')).length + 1

/-- Number of leading tab or space characters of a line. -/
def countLeadingTabSpace (lineTxt : String) : Nat :=
  (lineTxt.data.takeWhile (fun c => c = '\t' || c = ' ')).length

/-- The scan loop of readInstructionsFromSourceFile over the lines of the
file, threading the loop state explicitly. -/
def scanList (path : String) : List String → ScanState → Except ScanError ScanState
  | [], st => Except.ok st
  | l :: rest, st =>
    match getInstructionFromLine l with
    | some instr =>
      if instr = InstructionFile then
        scanList path rest ⟨st.lineNumber + 1, st.pending, st.instructions ++ [Instruction.ignoreFile]⟩
      else if instr = InstructionBlock then
        scanList path rest ⟨st.lineNumber + 1, instr, st.instructions⟩
      else
        Except.error ⟨instr, st.lineNumber, path⟩
    | none =>
      if st.pending ≠ "" then
        scanList path rest
          ⟨st.lineNumber + 1, "", st.instructions ++ [Instruction.ignoreBlock st.lineNumber (colStart l)]⟩
      else
        scanList path rest ⟨st.lineNumber + 1, st.pending, st.instructions⟩

/-- readInstructionsFromSourceFile of main.go on the list of lines of the
file: run the scan loop from line number 1 with no pending marker and no
instructions, and return the collected instructions. -/
def scanInstructions (path : String) (lines : List String) : Except ScanError (List Instruction) :=
  Except.map ScanState.instructions (scanList path lines ⟨1, "", []⟩)

/-- cover.ProfileBlock: one block of a coverage profile. -/
structure Block where
  startLine : Nat
  startCol : Nat
  endLine : Nat
  endCol : Nat
  numStmt : Nat
  count : Nat
deriving DecidableEq

/-- The assignment profile.Blocks[i].Count = 1 on one block. -/
def setCount1 (b : Block) : Block :=
  ⟨b.startLine, b.startCol, b.endLine, b.endCol, b.numStmt, 1⟩

/-- The body of the loop of IgnoreBlock.UpdateProfile on one block: encode
the anchor and the block bounds as line*100000 + col and mark the block
covered when the anchor falls in [start, end) and the count is 0. -/
def ignoreBlockPoint (line col : Nat) (b : Block) : Block :=
  let igPos := line * 100000 + col
  let blockStart := b.startLine * 100000 + b.startCol
  let blockEnd := b.endLine * 100000 + b.endCol
  if igPos ≥ blockStart ∧ igPos < blockEnd then
    if b.count = 0 then setCount1 b else b
  else b

/-- IgnoreBlock.UpdateProfile of main.go on the block list of a profile. -/
def updateIgnoreBlock (line col : Nat) (blocks : List Block) : List Block :=
  blocks.map (ignoreBlockPoint line col)

/-- The body of the loops of IgnoreFile.UpdateProfile and
PatternIgnore.UpdateProfile on one block. -/
def coverZeroPoint (b : Block) : Block :=
  if b.count = 0 then setCount1 b else b

/-- IgnoreFile.UpdateProfile of main.go on the block list of a profile. -/
def updateIgnoreFile (blocks : List Block) : List Block :=
  blocks.map coverZeroPoint

/-- PatternIgnore.UpdateProfile of main.go on the block list of a profile
(same loop as IgnoreFile.UpdateProfile; the matchedBy field only feeds the
verbose diagnostic). -/
def updatePatternIgnore (blocks : List Block) : List Block :=
  blocks.map coverZeroPoint

/-- Dispatch of Instruction.UpdateProfile over the three implementations. -/
def Instruction.apply : Instruction → List Block → List Block
  | .ignoreBlock line col, blocks => updateIgnoreBlock line col blocks
  | .ignoreFile, blocks => updateIgnoreFile blocks
  | .patternIgnore _, blocks => updatePatternIgnore blocks

/-- The per-block function each instruction variant maps over the list. -/
def Instruction.point : Instruction → Block → Block
  | .ignoreBlock line col => ignoreBlockPoint line col
  | .ignoreFile => coverZeroPoint
  | .patternIgnore _ => coverZeroPoint

/-- updateProfileFromIgnoreCoverages of main.go: apply each instruction of
the record in order to the block list of the profile. -/
def applyInstructions (instrs : List Instruction) (blocks : List Block) : List Block :=
  instrs.foldl (fun bs i => i.apply bs) blocks

/-- Pointwise fold of a list of instructions over one block. -/
def pointFold (instrs : List Instruction) (b : Block) : Block :=
  instrs.foldl (fun x i => i.point x) b

/-- One glob rule of the PatternMatcher.  matchFn models the external
doublestar.Match applied to this stored pattern: some b is the outcome
(matched = b, err = nil), none models a non-nil error. -/
structure GlobRule where
  pattern : String
  matchFn : String → Option Bool

/-- One regex rule of the PatternMatcher.  matchFn models MatchString of the
compiled regex. -/
structure RegexRule where
  pattern : String
  matchFn : String → Bool

/-- The PatternMatcher of main.go. -/
structure PatternMatcher where
  globPatterns : List GlobRule
  regexPatterns : List RegexRule
  root : String

/-- The diagnostic description returned for a glob match. -/
def globDesc (g : GlobRule) : String :=
  "glob pattern \x27" ++ g.pattern ++ "\x27"

/-- The diagnostic description returned for a regex match. -/
def regexDesc (r : RegexRule) : String :=
  "regex pattern \x27" ++ r.pattern ++ "\x27"

/-- The first loop of PatternMatcher.MatchesFile: for each glob pattern in
order, try the relative path, then the absolute path, before moving to the
next pattern. -/
def matchGlobList : List GlobRule → String → String → Option String
  | [], _, _ => none
  | g :: rest, relPath, absPath =>
    if g.matchFn relPath = some true then some (globDesc g)
    else if g.matchFn absPath = some true then some (globDesc g)
    else matchGlobList rest relPath absPath

/-- The second loop of PatternMatcher.MatchesFile: for each regex in order,
try the absolute path, then the relative path, before moving to the next
regex. -/
def matchRegexList : List RegexRule → String → String → Option String
  | [], _, _ => none
  | r :: rest, absPath, relPath =>
    if r.matchFn absPath then some (regexDesc r)
    else if r.matchFn relPath then some (regexDesc r)
    else matchRegexList rest absPath relPath

/-- PatternMatcher.MatchesFile of main.go, taking the relative path already
computed: relPath is filepath.Rel(pm.Root, absolutePath), falling back to
absolutePath itself when Rel fails.  some desc / none stand for the
(string, bool) pair. -/
def matchesFileWithRel (pm : PatternMatcher) (absolutePath relPath : String) : Option String :=
  match matchGlobList pm.globPatterns relPath absolutePath with
  | some d => some d
  | none => matchRegexList pm.regexPatterns absolutePath relPath

/-- Modelled from the claim wording for the matching order: a first pass of
every glob against the relative path, then every glob against the absolute
path, then every regex against the absolute path, then every regex against
the relative path, returning on the first match.  Compare with
matchesFileWithRel, which is translated from the source. -/
def firstGlobMatch : List GlobRule → String → Option String
  | [], _ => none
  | g :: rest, path =>
    if g.matchFn path = some true then some (globDesc g) else firstGlobMatch rest path

/-- Modelled from the claim wording: one pass of every regex against a single
path. -/
def firstRegexMatch : List RegexRule → String → Option String
  | [], _ => none
  | r :: rest, path =>
    if r.matchFn path then some (regexDesc r) else firstRegexMatch rest path

/-- Modelled from the claim wording: the four sequential passes the claim
describes for MatchesFile. -/
def matchesFileSpecOrder (pm : PatternMatcher) (absolutePath relPath : String) : Option String :=
  match firstGlobMatch pm.globPatterns relPath with
  | some d => some d
  | none =>
    match firstGlobMatch pm.globPatterns absolutePath with
    | some d => some d
    | none =>
      match firstRegexMatch pm.regexPatterns absolutePath with
      | some d => some d
      | none => firstRegexMatch pm.regexPatterns relPath

/-- The match attempts of MatchesFile for the glob loop, in evaluation
order, one Option per attempt. -/
def globCandidates : List GlobRule → String → String → List (Option String)
  | [], _, _ => []
  | g :: rest, relPath, absPath =>
    (if g.matchFn relPath = some true then some (globDesc g) else none) ::
    (if g.matchFn absPath = some true then some (globDesc g) else none) ::
    globCandidates rest relPath absPath

/-- The match attempts of MatchesFile for the regex loop, in evaluation
order. -/
def regexCandidates : List RegexRule → String → String → List (Option String)
  | [], _, _ => []
  | r :: rest, absPath, relPath =>
    (if r.matchFn absPath then some (regexDesc r) else none) ::
    (if r.matchFn relPath then some (regexDesc r) else none) ::
    regexCandidates rest absPath relPath

/-- First non-none element of a list of optional results. -/
def firstSome : List (Option String) → Option String
  | [] => none
  | some d :: _ => some d
  | none :: rest => firstSome rest

/-- IgnoreCoverage of main.go: the instructions collected for one source
file. -/
structure IgnoreCoverage where
  filepath : String
  instructions : List Instruction

/-- The lookup ignoreMap[file] of main.go (buildIgnoreCoverageMap builds the
map from the collected records, keyed by their unique file paths). -/
def lookupIgnore (ignores : List IgnoreCoverage) (file : String) : Option (List Instruction) :=
  match ignores.find? (fun ic => ic.filepath == file) with
  | some ic => some ic.instructions
  | none => none

/-- The per-profile body of the rewriting loop of main: when a pattern
matcher is configured and MatchesFile succeeds, apply a single PatternIgnore
instruction and skip the comment lookup (the continue statement); otherwise
fall back to the comment-derived instructions for the resolved file, if any.
file is the cache-resolved path of the profile and relPath its path relative
to the root. -/
def processProfile (patternMatcher : Option PatternMatcher) (ignores : List IgnoreCoverage)
    (file relPath : String) (blocks : List Block) : List Block :=
  match patternMatcher with
  | some pm =>
    match matchesFileWithRel pm file relPath with
    | some matchedBy => applyInstructions [Instruction.patternIgnore matchedBy] blocks
    | none =>
      match lookupIgnore ignores file with
      | some instrs => applyInstructions instrs blocks
      | none => blocks
  | none =>
    match lookupIgnore ignores file with
    | some instrs => applyInstructions instrs blocks
    | none => blocks

/-- cover.Profile: one file entry of the coverage report. -/
structure Profile where
  fileName : String
  mode : String
  blocks : List Block

/-- One serialized block line of writeProfiles:
"%s:%d.%d,%d.%d %d %d\n". -/
def blockLine (fileName : String) (b : Block) : String :=
  fileName ++ ":" ++ toString b.startLine ++ "." ++ toString b.startCol ++ "," ++
    toString b.endLine ++ "." ++ toString b.endCol ++ " " ++
    toString b.numStmt ++ " " ++ toString b.count ++ "\n"

/-- The serialized block lines of one profile. -/
def profileText (p : Profile) : String :=
  String.join (p.blocks.map (blockLine p.fileName))

/-- writeProfiles of main.go: the header is read from profiles[0]
unconditionally, then every block of every profile is emitted in order.
The indexing profiles[0] is modelled with the optional lookup, so none
captures the out-of-range failure of the Go slice access on an empty
profile list. -/
def writeProfiles (profiles : List Profile) : Option String :=
  match profiles[0]? with
  | none => none
  | some p0 => some ("mode: " ++ p0.mode ++ "\n" ++ String.join (profiles.map profileText))

theorem scanList_nil (path : String) (st : ScanState) :
    scanList path [] st = Except.ok st := rfl

theorem scanList_cons_error (path : String) (l : String) (rest : List String)
    (st : ScanState) (kw : String) (hl : getInstructionFromLine l = some kw)
    (hf : kw ≠ InstructionFile) (hb : kw ≠ InstructionBlock) :
    scanList path (l :: rest) st = Except.error ⟨kw, st.lineNumber, path⟩ := by
  simp [scanList, hl, hf, hb]

theorem scanList_cons_file (path : String) (l : String) (rest : List String)
    (st : ScanState) (hl : getInstructionFromLine l = some InstructionFile) :
    scanList path (l :: rest) st =
      scanList path rest
        ⟨st.lineNumber + 1, st.pending, st.instructions ++ [Instruction.ignoreFile]⟩ := by
  simp [scanList, hl]

theorem scanList_cons_block (path : String) (l : String) (rest : List String)
    (st : ScanState) (hl : getInstructionFromLine l = some InstructionBlock) :
    scanList path (l :: rest) st =
      scanList path rest ⟨st.lineNumber + 1, InstructionBlock, st.instructions⟩ := by
  have hfb : InstructionBlock ≠ InstructionFile := by decide
  simp [scanList, hl, hfb]

theorem scanList_cons_plain_pending (path : String) (l : String) (rest : List String)
    (st : ScanState) (hl : getInstructionFromLine l = none) (hp : st.pending ≠ "") :
    scanList path (l :: rest) st =
      scanList path rest
        ⟨st.lineNumber + 1, "",
         st.instructions ++ [Instruction.ignoreBlock st.lineNumber (colStart l)]⟩ := by
  simp [scanList, hl, hp]

theorem scanList_cons_plain_clear (path : String) (l : String) (rest : List String)
    (st : ScanState) (hl : getInstructionFromLine l = none) (hp : st.pending = "") :
    scanList path (l :: rest) st =
      scanList path rest ⟨st.lineNumber + 1, st.pending, st.instructions⟩ := by
  simp [scanList, hl, hp]

theorem scanList_append (path : String) (xs ys : List String) (st : ScanState) :
    scanList path (xs ++ ys) st =
      Except.bind (scanList path xs st) (fun st2 => scanList path ys st2) := by
  induction xs generalizing st with
  | nil => rfl
  | cons x xs ih =>
    rw [List.cons_append]
    cases hl : getInstructionFromLine x with
    | some instr =>
      by_cases hf : instr = InstructionFile
      · subst hf
        rw [scanList_cons_file path x (xs ++ ys) st hl, scanList_cons_file path x xs st hl, ih]
      · by_cases hb : instr = InstructionBlock
        · subst hb
          rw [scanList_cons_block path x (xs ++ ys) st hl, scanList_cons_block path x xs st hl, ih]
        · rw [scanList_cons_error path x (xs ++ ys) st instr hl hf hb,
              scanList_cons_error path x xs st instr hl hf hb]
          rfl
    | none =>
      by_cases hp : st.pending = ""
      · rw [scanList_cons_plain_clear path x (xs ++ ys) st hl hp,
            scanList_cons_plain_clear path x xs st hl hp, ih]
      · rw [scanList_cons_plain_pending path x (xs ++ ys) st hl hp,
            scanList_cons_plain_pending path x xs st hl hp, ih]

theorem scanList_ok_lineNumber (path : String) (ls : List String) :
    ∀ st st2 : ScanState, scanList path ls st = Except.ok st2 →
      st2.lineNumber = st.lineNumber + ls.length := by
  induction ls with
  | nil =>
    intro st st2 h
    rw [scanList_nil] at h
    cases h
    simp
  | cons l rest ih =>
    intro st st2 h
    cases hl : getInstructionFromLine l with
    | some instr =>
      by_cases hf : instr = InstructionFile
      · subst hf
        rw [scanList_cons_file path l rest st hl] at h
        have := ih _ _ h
        simp at this
        simp [this]
        omega
      · by_cases hb : instr = InstructionBlock
        · subst hb
          rw [scanList_cons_block path l rest st hl] at h
          have := ih _ _ h
          simp at this
          simp [this]
          omega
        · rw [scanList_cons_error path l rest st instr hl hf hb] at h
          cases h
    | none =>
      by_cases hp : st.pending = ""
      · rw [scanList_cons_plain_clear path l rest st hl hp] at h
        have := ih _ _ h
        simp at this
        simp [this]
        omega
      · rw [scanList_cons_plain_pending path l rest st hl hp] at h
        have := ih _ _ h
        simp at this
        simp [this]
        omega

theorem colStart_eq_leading (l : String) : colStart l = countLeadingTabSpace l + 1 := by
  unfold colStart countLeadingTabSpace
  have hsplit : l.data.length =
      (l.data.takeWhile (fun c => c = '\t' || c = ' ')).length +
      (l.data.dropWhile (fun c => c = '\t' || c = ' ')).length := by
    conv_lhs =>
      rw [← @List.takeWhile_append_dropWhile Char (fun c => c = '\t' || c = ' ') l.data]
    exact List.length_append ..
  omega

/-- Claim C1, counterexample: the line with explicit keyword block matches
the ignore-comment grammar with the non-empty keyword block, which is not
file, yet the scan of a file made of that line succeeds instead of failing
as the claim requires. -/
theorem block_keyword_scan_succeeds :
    findIgnoreMatch "//coverage:ignore block".data = some "block" ∧
    ("block" : String) ≠ "file" ∧
    scanInstructions "a.go" ["//coverage:ignore block"] = Except.ok [] :=
  ⟨by decide, by decide, rfl⟩

/-- Claim C1, amended: for every scanned source line that yields an
instruction keyword that is neither file nor block, the scan of that file
fails with an error naming the keyword, the 1-based line number, and the
file path; the keywords file and block are the only accepted ones. -/
theorem scan_errors_on_unknown_keyword (path : String) (pre : List String)
    (l : String) (post : List String) (kw : String) (st : ScanState)
    (hpre : scanList path pre ⟨1, "", []⟩ = Except.ok st)
    (hl : getInstructionFromLine l = some kw)
    (hf : kw ≠ InstructionFile) (hb : kw ≠ InstructionBlock) :
    scanInstructions path (pre ++ l :: post) = Except.error ⟨kw, pre.length + 1, path⟩ := by
  have hline := scanList_ok_lineNumber path pre _ _ hpre
  simp only [ScanState.lineNumber] at hline
  unfold scanInstructions
  rw [scanList_append, hpre]
  show Except.map ScanState.instructions (scanList path (l :: post) st) = _
  rw [scanList_cons_error path l post st kw hl hf hb, hline]
  simp [Except.map, Nat.add_comm]

/-- Claim C1, witness for the amended theorem at a concrete file. -/
theorem scan_errors_on_unknown_keyword_witness :
    scanInstructions "a.go" ["//coverage:ignore xyz"] =
      Except.error ⟨"xyz", 1, "a.go"⟩ := by
  simpa using scan_errors_on_unknown_keyword "a.go" [] "//coverage:ignore xyz" [] "xyz"
    ⟨1, "", []⟩ rfl (by decide) (by decide) (by decide)

/-- Claim C2, counterexample: a bare block comment on line 1 followed by a
file-scoped comment on line 2 produces only the IgnoreFile instruction; no
IgnoreBlock anchored at line 2 is emitted, although the claim requires the
emission regardless of whether line 2 carries another instruction
comment. -/
theorem pending_block_not_emitted_on_instruction_line :
    getInstructionFromLine "//coverage:ignore" = some InstructionBlock ∧
    getInstructionFromLine "// coverage:ignore file" = some InstructionFile ∧
    scanInstructions "a.go" ["//coverage:ignore", "// coverage:ignore file"] =
      Except.ok [Instruction.ignoreFile] ∧
    Instruction.ignoreBlock 2 1 ∉ [Instruction.ignoreFile] :=
  ⟨by decide, by decide, rfl, by decide⟩

/-- Claim C2, amended: when a bare block comment sits on line N and line N+1
does not itself carry an instruction comment, scanning line N+1 emits an
IgnoreBlock anchored at line N+1 with column 1 plus the number of leading
tab or space characters of line N+1, and clears the pending marker. -/
theorem pending_block_emitted_on_next_plain_line (path : String) (pre : List String)
    (l1 l2 : String) (post : List String) (st : ScanState)
    (hpre : scanList path pre ⟨1, "", []⟩ = Except.ok st)
    (h1 : getInstructionFromLine l1 = some InstructionBlock)
    (h2 : getInstructionFromLine l2 = none) :
    scanList path (pre ++ l1 :: l2 :: post) ⟨1, "", []⟩ =
      scanList path post
        ⟨pre.length + 3, "",
         st.instructions ++
           [Instruction.ignoreBlock (pre.length + 2) (countLeadingTabSpace l2 + 1)]⟩ := by
  have hline := scanList_ok_lineNumber path pre _ _ hpre
  simp only [ScanState.lineNumber] at hline
  rw [scanList_append, hpre]
  show scanList path (l1 :: l2 :: post) st = _
  rw [scanList_cons_block path l1 (l2 :: post) st h1]
  rw [scanList_cons_plain_pending path l2 post _ h2 (by show InstructionBlock ≠ ""; decide)]
  simp only [ScanState.lineNumber, ScanState.instructions]
  rw [hline, colStart_eq_leading]
  have e1 : 1 + pre.length + 1 + 1 = pre.length + 3 := by omega
  have e2 : 1 + pre.length + 1 = pre.length + 2 := by omega
  rw [e1, e2]

/-- Claim C2, witness for the amended theorem at a concrete file. -/
theorem pending_block_emitted_on_next_plain_line_witness :
    scanList "a.go" ["//coverage:ignore", "  foo()"] ⟨1, "", []⟩ =
      scanList "a.go" [] ⟨3, "", [Instruction.ignoreBlock 2 3]⟩ := by
  simpa using pending_block_emitted_on_next_plain_line "a.go" [] "//coverage:ignore"
    "  foo()" [] ⟨1, "", []⟩ rfl (by decide) (by decide)

/-- Claim C8: when the last line of a file carries a bare block comment, the
scan completes successfully and the unresolved pending marker contributes
nothing: the result is exactly the instructions collected for the earlier
lines. -/
theorem trailing_pending_block_silently_dropped (path : String) (pre : List String)
    (l : String) (st : ScanState)
    (hpre : scanList path pre ⟨1, "", []⟩ = Except.ok st)
    (hl : getInstructionFromLine l = some InstructionBlock) :
    scanInstructions path (pre ++ [l]) = Except.ok st.instructions := by
  unfold scanInstructions
  rw [scanList_append, hpre]
  show Except.map ScanState.instructions (scanList path [l] st) = _
  rw [scanList_cons_block path l [] st hl]
  rfl

/-- Claim C8, witness at a concrete file whose last line is a bare block
comment. -/
theorem trailing_pending_block_silently_dropped_witness :
    scanInstructions "a.go" ["// coverage:ignore file", "//coverage:ignore"] =
      Except.ok [Instruction.ignoreFile] := by
  simpa using trailing_pending_block_silently_dropped "a.go" ["// coverage:ignore file"]
    "//coverage:ignore" ⟨2, "", [Instruction.ignoreFile]⟩ rfl (by decide)

/-- Claim C10, counterexample: the line with a tab between the comment
marker and coverage:ignore matches the end-of-line-anchored regex (since \s
admits a tab) with the keyword xyz, which is neither file nor block, yet the
scanner raises no error for it: the substring pre-check of
getInstructionFromLine rejects the line first, so it is treated as an
ordinary source line. -/
theorem regex_match_without_marker_not_error :
    findIgnoreMatch "//\tcoverage:ignore xyz".data = some "xyz" ∧
    ("xyz" : String) ≠ InstructionFile ∧ ("xyz" : String) ≠ InstructionBlock ∧
    hasIgnoreMarker "//\tcoverage:ignore xyz" = false ∧
    scanInstructions "a.go" ["//\tcoverage:ignore xyz"] = Except.ok [] :=
  ⟨by decide, by decide, by decide, by decide, rfl⟩

/-- Claim C10, amended: the scanner raises an error for a line if and only
if the line both contains one of the substrings //coverage:ignore or
(slash slash space)coverage:ignore and matches the end-of-line-anchored
regex with a keyword other than file and block; a line containing the
marker substring but failing the anchored grammar yields neither an
instruction nor an error and is treated as an ordinary source line. -/
theorem scan_error_iff_marker_and_bad_keyword (path : String) (l : String) :
    ((∃ e, scanInstructions path [l] = Except.error e) ↔
      (hasIgnoreMarker l = true ∧ ∃ kw, findIgnoreMatch l.data = some kw ∧
        kw ≠ "" ∧ kw ≠ InstructionFile ∧ kw ≠ InstructionBlock)) ∧
    (hasIgnoreMarker l = true → findIgnoreMatch l.data = none →
      scanInstructions path [l] = Except.ok []) := by
  cases hm : hasIgnoreMarker l with
  | false =>
    have hinstr : getInstructionFromLine l = none := by
      unfold getInstructionFromLine
      rw [hm]
      simp
    have hok : scanInstructions path [l] = Except.ok [] := by
      unfold scanInstructions
      rw [scanList_cons_plain_clear path l [] ⟨1, "", []⟩ hinstr rfl]
      rfl
    refine ⟨⟨fun ⟨e, he⟩ => ?_, fun ⟨hm2, _⟩ => ?_⟩, fun hm2 _ => ?_⟩
    · rw [hok] at he
      exact Except.noConfusion he
    · exact Bool.noConfusion hm2
    · exact Bool.noConfusion hm2
  | true =>
    cases hf : findIgnoreMatch l.data with
    | none =>
      have hinstr : getInstructionFromLine l = none := by
        unfold getInstructionFromLine
        rw [hm, hf]
        simp
      have hok : scanInstructions path [l] = Except.ok [] := by
        unfold scanInstructions
        rw [scanList_cons_plain_clear path l [] ⟨1, "", []⟩ hinstr rfl]
        rfl
      refine ⟨⟨fun ⟨e, he⟩ => ?_, fun ⟨_, kw, hkw, _⟩ => ?_⟩, fun _ _ => hok⟩
      · rw [hok] at he
        exact Except.noConfusion he
      · exact Option.noConfusion hkw
    | some kw =>
      by_cases hke : kw = ""
      · subst hke
        have hinstr : getInstructionFromLine l = some InstructionBlock := by
          unfold getInstructionFromLine
          rw [hm, hf]
          simp [DefaultInstruction]
        have hok : scanInstructions path [l] = Except.ok [] := by
          unfold scanInstructions
          rw [scanList_cons_block path l [] ⟨1, "", []⟩ hinstr]
          rfl
        refine ⟨⟨fun ⟨e, he⟩ => ?_, fun ⟨_, kw2, hkw2, hne, _⟩ => ?_⟩, fun _ hnone => ?_⟩
        · rw [hok] at he
          exact Except.noConfusion he
        · injection hkw2 with hkk
          exact absurd hkk.symm hne
        · exact Option.noConfusion hnone
      · have hinstr : getInstructionFromLine l = some kw := by
          unfold getInstructionFromLine
          rw [hm, hf]
          simp [hke]
        by_cases hfile : kw = InstructionFile
        · subst hfile
          have hok : scanInstructions path [l] =
              Except.ok [Instruction.ignoreFile] := by
            unfold scanInstructions
            rw [scanList_cons_file path l [] ⟨1, "", []⟩ hinstr]
            rfl
          refine ⟨⟨fun ⟨e, he⟩ => ?_, fun ⟨_, kw2, hkw2, _, hnf, _⟩ => ?_⟩,
            fun _ hnone => ?_⟩
          · rw [hok] at he
            exact Except.noConfusion he
          · injection hkw2 with hkk
            exact absurd hkk.symm hnf
          · exact Option.noConfusion hnone
        · by_cases hblock : kw = InstructionBlock
          · subst hblock
            have hok : scanInstructions path [l] = Except.ok [] := by
              unfold scanInstructions
              rw [scanList_cons_block path l [] ⟨1, "", []⟩ hinstr]
              rfl
            refine ⟨⟨fun ⟨e, he⟩ => ?_, fun ⟨_, kw2, hkw2, _, _, hnb⟩ => ?_⟩,
              fun _ hnone => ?_⟩
            · rw [hok] at he
              exact Except.noConfusion he
            · injection hkw2 with hkk
              exact absurd hkk.symm hnb
            · exact Option.noConfusion hnone
          · have herr : scanInstructions path [l] =
                Except.error ⟨kw, 1, path⟩ := by
              unfold scanInstructions
              rw [scanList_cons_error path l [] ⟨1, "", []⟩ kw hinstr hfile hblock]
              rfl
            refine ⟨⟨fun _ => ⟨rfl, kw, rfl, hke, hfile, hblock⟩,
              fun _ => ⟨⟨kw, 1, path⟩, herr⟩⟩, fun _ hnone => ?_⟩
            exact Option.noConfusion hnone

/-- Claim C10, witness for the amended theorem: a line that contains the
marker substring but has trailing text after the keyword produces neither an
instruction nor an error. -/
theorem scan_error_iff_marker_and_bad_keyword_witness :
    scanInstructions "a.go" ["//coverage:ignore file extra"] = Except.ok [] :=
  (scan_error_iff_marker_and_bad_keyword "a.go" "//coverage:ignore file extra").2
    (by decide) (by decide)

/-- Claim C3: applying an IgnoreBlock instruction with anchor (line, col)
preserves the block count of the profile; a block whose encoded start
startLine*100000+startCol is at most the encoded anchor line*100000+col and
whose encoded end endLine*100000+endCol is strictly greater and whose
execution count is 0 is set to count 1; a matched block already executed is
unchanged; an unmatched block is unchanged. -/
theorem ignoreBlock_marks_exactly_enclosing_blocks (line col : Nat) (bs : List Block)
    (i : Nat) (b : Block) (hb : bs[i]? = some b) :
    (updateIgnoreBlock line col bs).length = bs.length ∧
    (b.startLine * 100000 + b.startCol ≤ line * 100000 + col →
      line * 100000 + col < b.endLine * 100000 + b.endCol →
      b.count = 0 →
      (updateIgnoreBlock line col bs)[i]? = some (setCount1 b)) ∧
    (b.count ≠ 0 → (updateIgnoreBlock line col bs)[i]? = some b) ∧
    (¬ (b.startLine * 100000 + b.startCol ≤ line * 100000 + col ∧
        line * 100000 + col < b.endLine * 100000 + b.endCol) →
      (updateIgnoreBlock line col bs)[i]? = some b) := by
  have hmap : (updateIgnoreBlock line col bs)[i]? = some (ignoreBlockPoint line col b) := by
    unfold updateIgnoreBlock
    rw [List.getElem?_map, hb]
    rfl
  refine ⟨by simp [updateIgnoreBlock], fun hs he hc => ?_, fun hc => ?_, fun hnm => ?_⟩
  · rw [hmap]
    unfold ignoreBlockPoint
    rw [if_pos ⟨hs, he⟩, if_pos hc]
  · rw [hmap]
    unfold ignoreBlockPoint
    by_cases hin : line * 100000 + col ≥ b.startLine * 100000 + b.startCol ∧
        line * 100000 + col < b.endLine * 100000 + b.endCol
    · rw [if_pos hin, if_neg hc]
    · rw [if_neg hin]
  · rw [hmap]
    unfold ignoreBlockPoint
    rw [if_neg hnm]

/-- Claim C3, witness: a zero-count block enclosing the anchor is marked
covered. -/
theorem ignoreBlock_marks_exactly_enclosing_blocks_witness :
    (updateIgnoreBlock 2 3 [⟨1, 1, 5, 1, 2, 0⟩])[0]? = some ⟨1, 1, 5, 1, 2, 1⟩ :=
  (ignoreBlock_marks_exactly_enclosing_blocks 2 3 [⟨1, 1, 5, 1, 2, 0⟩] 0
    ⟨1, 1, 5, 1, 2, 0⟩ (by decide)).2.1 (by decide) (by decide) (by decide)

/-- Claim C4: applying IgnoreFile or PatternIgnore to a profile sets the
count of every block whose count is 0 to 1 (leaving its statement count and
bounds untouched, as setCount1 changes only the count field) and leaves
every block with non-zero count entirely unchanged. -/
theorem ignoreFile_marks_zero_count_blocks (bs : List Block) (i : Nat) (b : Block)
    (hb : bs[i]? = some b) :
    (updateIgnoreFile bs).length = bs.length ∧
    (b.count = 0 → (updateIgnoreFile bs)[i]? = some (setCount1 b) ∧
      (updatePatternIgnore bs)[i]? = some (setCount1 b)) ∧
    (b.count ≠ 0 → (updateIgnoreFile bs)[i]? = some b ∧
      (updatePatternIgnore bs)[i]? = some b) ∧
    (setCount1 b).numStmt = b.numStmt := by
  have hmap : (updateIgnoreFile bs)[i]? = some (coverZeroPoint b) := by
    unfold updateIgnoreFile
    rw [List.getElem?_map, hb]
    rfl
  have hmap2 : (updatePatternIgnore bs)[i]? = some (coverZeroPoint b) := by
    unfold updatePatternIgnore
    rw [List.getElem?_map, hb]
    rfl
  refine ⟨by simp [updateIgnoreFile], fun hc => ?_, fun hc => ?_, rfl⟩
  · rw [hmap, hmap2]
    unfold coverZeroPoint
    rw [if_pos hc]
    exact ⟨rfl, rfl⟩
  · rw [hmap, hmap2]
    unfold coverZeroPoint
    rw [if_neg hc]
    exact ⟨rfl, rfl⟩

/-- Claim C4, witness: a zero-count block is marked covered by both
file-scoped transforms, an executed block is untouched. -/
theorem ignoreFile_marks_zero_count_blocks_witness :
    (updateIgnoreFile [⟨1, 1, 5, 1, 2, 0⟩])[0]? = some ⟨1, 1, 5, 1, 2, 1⟩ ∧
    (updatePatternIgnore [⟨1, 1, 5, 1, 2, 0⟩])[0]? = some ⟨1, 1, 5, 1, 2, 1⟩ :=
  (ignoreFile_marks_zero_count_blocks [⟨1, 1, 5, 1, 2, 0⟩] 0 ⟨1, 1, 5, 1, 2, 0⟩
    (by decide)).2.1 (by decide)

theorem point_cases (i : Instruction) (b : Block) :
    i.point b = b ∨ (b.count = 0 ∧ i.point b = setCount1 b) := by
  cases i with
  | ignoreBlock line col =>
    show ignoreBlockPoint line col b = b ∨
      (b.count = 0 ∧ ignoreBlockPoint line col b = setCount1 b)
    simp only [ignoreBlockPoint]
    split_ifs with h1 h2
    · exact Or.inr ⟨h2, rfl⟩
    · exact Or.inl rfl
    · exact Or.inl rfl
  | ignoreFile =>
    show coverZeroPoint b = b ∨ (b.count = 0 ∧ coverZeroPoint b = setCount1 b)
    simp only [coverZeroPoint]
    split_ifs with h1
    · exact Or.inr ⟨h1, rfl⟩
    · exact Or.inl rfl
  | patternIgnore d =>
    show coverZeroPoint b = b ∨ (b.count = 0 ∧ coverZeroPoint b = setCount1 b)
    simp only [coverZeroPoint]
    split_ifs with h1
    · exact Or.inr ⟨h1, rfl⟩
    · exact Or.inl rfl

theorem point_of_count_ne_zero (i : Instruction) (b : Block) (hc : b.count ≠ 0) :
    i.point b = b := by
  rcases point_cases i b with h | ⟨h0, _⟩
  · exact h
  · exact absurd h0 hc

theorem apply_eq_map (i : Instruction) (bs : List Block) :
    i.apply bs = bs.map i.point := by
  cases i <;> rfl

theorem applyInstructions_eq_map (instrs : List Instruction) (bs : List Block) :
    applyInstructions instrs bs = bs.map (pointFold instrs) := by
  induction instrs generalizing bs with
  | nil =>
    have hid : pointFold [] = id := rfl
    rw [hid, List.map_id]
    rfl
  | cons i rest ih =>
    show applyInstructions rest (i.apply bs) = _
    rw [ih, apply_eq_map, List.map_map]
    rfl

theorem pointFold_cases (instrs : List Instruction) (b : Block) :
    pointFold instrs b = b ∨ (b.count = 0 ∧ pointFold instrs b = setCount1 b) := by
  induction instrs generalizing b with
  | nil => exact Or.inl rfl
  | cons i rest ih =>
    show pointFold rest (i.point b) = b ∨
      (b.count = 0 ∧ pointFold rest (i.point b) = setCount1 b)
    rcases point_cases i b with h | ⟨h0, h1⟩
    · rw [h]
      exact ih b
    · rw [h1]
      rcases ih (setCount1 b) with h2 | ⟨h20, _⟩
      · rw [h2]
        exact Or.inr ⟨h0, rfl⟩
      · exact absurd h20 (by simp [setCount1])

theorem pointFold_of_count_ne_zero (instrs : List Instruction) (b : Block)
    (hc : b.count ≠ 0) : pointFold instrs b = b := by
  induction instrs with
  | nil => rfl
  | cons i rest ih =>
    show pointFold rest (i.point b) = b
    rw [point_of_count_ne_zero i b hc]
    exact ih

theorem pointFold_idem (instrs : List Instruction) (b : Block) :
    pointFold instrs (pointFold instrs b) = pointFold instrs b := by
  rcases pointFold_cases instrs b with h | ⟨_, h1⟩
  · rw [h, h]
  · rw [h1]
    exact pointFold_of_count_ne_zero instrs (setCount1 b) (by simp [setCount1])

theorem applyInstructions_idem (instrs : List Instruction) (cs : List Block) :
    applyInstructions instrs (applyInstructions instrs cs) = applyInstructions instrs cs := by
  rw [applyInstructions_eq_map, applyInstructions_eq_map, List.map_map]
  apply List.map_congr_left
  intro b _
  exact pointFold_idem instrs b

theorem processProfile_none (ignores : List IgnoreCoverage) (file relPath : String)
    (bs : List Block) :
    processProfile none ignores file relPath bs =
      match lookupIgnore ignores file with
      | some instrs => applyInstructions instrs bs
      | none => bs := rfl

theorem processProfile_some (pm : PatternMatcher) (ignores : List IgnoreCoverage)
    (file relPath : String) (bs : List Block) :
    processProfile (some pm) ignores file relPath bs =
      match matchesFileWithRel pm file relPath with
      | some matchedBy => applyInstructions [Instruction.patternIgnore matchedBy] bs
      | none =>
        match lookupIgnore ignores file with
        | some instrs => applyInstructions instrs bs
        | none => bs := rfl

theorem processProfile_eq_applyInstructions (patternMatcher : Option PatternMatcher)
    (ignores : List IgnoreCoverage) (file relPath : String) :
    ∃ instrs : List Instruction, ∀ bs : List Block,
      processProfile patternMatcher ignores file relPath bs = applyInstructions instrs bs := by
  cases patternMatcher with
  | none =>
    cases h : lookupIgnore ignores file with
    | none =>
      refine ⟨[], fun bs => ?_⟩
      rw [processProfile_none, h]
      rfl
    | some instrs =>
      refine ⟨instrs, fun bs => ?_⟩
      rw [processProfile_none, h]
  | some pm =>
    cases hm : matchesFileWithRel pm file relPath with
    | some d =>
      refine ⟨[Instruction.patternIgnore d], fun bs => ?_⟩
      rw [processProfile_some, hm]
    | none =>
      cases h : lookupIgnore ignores file with
      | none =>
        refine ⟨[], fun bs => ?_⟩
        rw [processProfile_some, hm, h]
        rfl
      | some instrs =>
        refine ⟨instrs, fun bs => ?_⟩
        rw [processProfile_some, hm, h]

/-- Claim C7: running the per-profile rewriting step of main a second time
on its own output, with the same pattern matcher, the same comment
instruction table and the same resolved paths, changes nothing; in
particular applying any instruction list twice, hence each of the three
block-marking transforms twice, equals applying it once. -/
theorem rewriting_engine_idempotent (patternMatcher : Option PatternMatcher)
    (ignores : List IgnoreCoverage) (file relPath : String) (bs : List Block) :
    processProfile patternMatcher ignores file relPath
        (processProfile patternMatcher ignores file relPath bs) =
      processProfile patternMatcher ignores file relPath bs ∧
    ∀ (instrs : List Instruction) (cs : List Block),
      applyInstructions instrs (applyInstructions instrs cs) = applyInstructions instrs cs := by
  refine ⟨?_, applyInstructions_idem⟩
  obtain ⟨instrs, hinstrs⟩ :=
    processProfile_eq_applyInstructions patternMatcher ignores file relPath
  rw [hinstrs, hinstrs]
  exact applyInstructions_idem instrs bs

/-- Claim C5, counterexample: with two glob rules, the first matching only
the absolute path and the second matching only the relative path, the code
reports the first rule (each glob is tried against the relative and then the
absolute path before the next glob), while the four-pass order of the claim
would report the second rule: the two orders return different matching-rule
descriptions. -/
theorem matchesFile_order_differs_from_four_passes :
    matchesFileWithRel
        ⟨[⟨"A", fun s => some (s == "ABS")⟩, ⟨"B", fun s => some (s == "REL")⟩], [], "/"⟩
        "ABS" "REL" = some "glob pattern \x27A\x27" ∧
    matchesFileSpecOrder
        ⟨[⟨"A", fun s => some (s == "ABS")⟩, ⟨"B", fun s => some (s == "REL")⟩], [], "/"⟩
        "ABS" "REL" = some "glob pattern \x27B\x27" ∧
    ("glob pattern \x27A\x27" : String) ≠ "glob pattern \x27B\x27" :=
  ⟨rfl, rfl, by decide⟩

theorem firstSome_append (xs ys : List (Option String)) :
    firstSome (xs ++ ys) =
      match firstSome xs with
      | some d => some d
      | none => firstSome ys := by
  induction xs with
  | nil => rfl
  | cons x rest ih =>
    cases x with
    | some d => rfl
    | none =>
      show firstSome (rest ++ ys) = _
      rw [ih]
      rfl

theorem matchGlobList_eq_firstSome (globs : List GlobRule) (relPath absPath : String) :
    matchGlobList globs relPath absPath = firstSome (globCandidates globs relPath absPath) := by
  induction globs with
  | nil => rfl
  | cons g rest ih =>
    show matchGlobList (g :: rest) relPath absPath = _
    unfold matchGlobList globCandidates
    by_cases h1 : g.matchFn relPath = some true
    · rw [if_pos h1, if_pos h1]
      rfl
    · rw [if_neg h1, if_neg h1]
      by_cases h2 : g.matchFn absPath = some true
      · rw [if_pos h2, if_pos h2]
        rfl
      · rw [if_neg h2, if_neg h2]
        exact ih

theorem matchRegexList_eq_firstSome (regexes : List RegexRule) (absPath relPath : String) :
    matchRegexList regexes absPath relPath =
      firstSome (regexCandidates regexes absPath relPath) := by
  induction regexes with
  | nil => rfl
  | cons r rest ih =>
    unfold matchRegexList regexCandidates
    by_cases h1 : r.matchFn absPath = true
    · rw [if_pos h1, if_pos h1]
      rfl
    · rw [if_neg h1, if_neg h1]
      by_cases h2 : r.matchFn relPath = true
      · rw [if_pos h2, if_pos h2]
        rfl
      · rw [if_neg h2, if_neg h2]
        exact ih

/-- Claim C5, amended: MatchesFile returns the first successful attempt of
the sequence that tries, for each glob pattern in order, the relative path
and then the absolute path, followed by, for each regex in order, the
absolute path and then the relative path; it returns not-found exactly when
no attempt in that sequence succeeds. -/
theorem matchesFile_first_match_interleaved_order (pm : PatternMatcher)
    (absolutePath relPath : String) :
    matchesFileWithRel pm absolutePath relPath =
      firstSome (globCandidates pm.globPatterns relPath absolutePath ++
        regexCandidates pm.regexPatterns absolutePath relPath) := by
  rw [firstSome_append, ← matchGlobList_eq_firstSome, ← matchRegexList_eq_firstSome]
  unfold matchesFileWithRel
  cases matchGlobList pm.globPatterns relPath absolutePath with
  | some d => rfl
  | none => rfl

/-- Claim C6: when the resolved path of a report entry matches a configured
pattern, the rewritten blocks are identical to those produced with no
comment-derived instruction table at all: the pattern match short-circuits
the comment-instruction lookup for that entry. -/
theorem pattern_match_shortcircuits_comment_instructions (pm : PatternMatcher)
    (ignores : List IgnoreCoverage) (file relPath : String) (blocks : List Block)
    (d : String) (h : matchesFileWithRel pm file relPath = some d) :
    processProfile (some pm) ignores file relPath blocks =
      processProfile (some pm) [] file relPath blocks := by
  rw [processProfile_some, processProfile_some, h]

/-- Claim C6, witness: a matcher whose single glob matches everything makes
the comment instruction table irrelevant for the entry. -/
theorem pattern_match_shortcircuits_comment_instructions_witness :
    processProfile (some ⟨[⟨"**", fun _ => some true⟩], [], "/"⟩)
        [⟨"f.go", [Instruction.ignoreFile]⟩] "f.go" "f.go" [⟨1, 1, 5, 1, 2, 0⟩] =
      processProfile (some ⟨[⟨"**", fun _ => some true⟩], [], "/"⟩)
        [] "f.go" "f.go" [⟨1, 1, 5, 1, 2, 0⟩] :=
  pattern_match_shortcircuits_comment_instructions ⟨[⟨"**", fun _ => some true⟩], [], "/"⟩
    [⟨"f.go", [Instruction.ignoreFile]⟩] "f.go" "f.go" [⟨1, 1, 5, 1, 2, 0⟩]
    "glob pattern \x27**\x27" rfl

/-- Claim C9: the report serializer reads the mode of the first profile
unconditionally, so it is undefined (the Go slice access panics) on the
empty profile sequence, and on a non-empty sequence it produces the header
from the first profile followed by every block line. -/
theorem writeProfiles_undefined_on_empty :
    writeProfiles [] = none ∧
    ∀ (p : Profile) (ps : List Profile),
      writeProfiles (p :: ps) =
        some ("mode: " ++ p.mode ++ "\n" ++ String.join ((p :: ps).map profileText)) :=
  ⟨rfl, fun p ps => by simp [writeProfiles]⟩
